import Mathlib

/-!
Verification of the three JSON-file utility servers (journal, memory store,
prompt library) against their natural-language specification.

Each server tool follows the pipeline: load a JSON file, compute
(filter / sort / paginate / mutate), optionally save, render a string.
The embedding below mirrors that pipeline: each tool is a pure function
from the loaded store (plus the validated input record and the ambient
clock values) to a result holding the resulting persisted store, whether
a save was performed, and the returned message.

File I/O is represented by `RawFile`: a persisted file is either missing,
unreadable (an I/O failure on read), malformed (corrupt JSON), or well
formed with parsed contents.  Python string comparison (used as a sort
key on ISO-8601 timestamps) is code-point lexicographic; it is embedded
as an executable lexicographic comparison on `List Char`.  Python's
`list.sort` is a stable sort; it is embedded as `List.mergeSort`, which
is likewise stable.
-/

/-- One persisted file as seen by a loader: the file may be absent,
unreadable (I/O error), contain malformed JSON, or parse to `α`. -/
inductive RawFile (α : Type) where
  | missing
  | unreadable
  | malformed
  | wellFormed (contents : α)

/-- Zero-padded decimal rendering, `"%04d"` in the source. -/
def pad4 (n : Nat) : String :=
  let s := toString n
  String.mk (List.replicate (4 - s.length) '0') ++ s

/-- Python `str.lower()` (per-character lowering suffices for the
ASCII identifiers and tags this program handles). -/
def strLower (s : String) : String :=
  String.mk (s.data.map Char.toLower)

/-- Strict code-point lexicographic order on character lists: Python `<`
on strings. -/
def charsLt : List Char → List Char → Bool
  | [], [] => false
  | [], _ :: _ => true
  | _ :: _, [] => false
  | a :: as, b :: bs => if a < b then true else if b < a then false else charsLt as bs

/-- Code-point lexicographic order on character lists: Python `<=` on
strings. -/
def charsLe : List Char → List Char → Bool
  | [], _ => true
  | _ :: _, [] => false
  | a :: as, b :: bs => if a < b then true else if b < a then false else charsLe as bs

/-- Python `s < t` on strings. -/
def strLt (s t : String) : Bool := charsLt s.data t.data

/-- Python `s <= t` on strings. -/
def strLe (s t : String) : Bool := charsLe s.data t.data

/-- The needle list starts the haystack list. -/
def charsStart : List Char → List Char → Bool
  | [], _ => true
  | _ :: _, [] => false
  | a :: as, b :: bs => a == b && charsStart as bs

/-- The needle occurs contiguously in the haystack: Python `needle in haystack`
on strings. -/
def charsHas (needle : List Char) : List Char → Bool
  | [] => charsStart needle []
  | c :: rest => charsStart needle (c :: rest) || charsHas needle rest

/-- Python `needle in haystack` for strings. -/
def strHas (needle haystack : String) : Bool := charsHas needle.data haystack.data

namespace EAMemory

/-- One stored memory: an element of the `"memories"` array of
`memories.json`. -/
structure Memory where
  id : String
  content : String
  tags : List String
  importance : Nat
  created_at : String
deriving DecidableEq, Repr

/-- The whole `memories.json` document: `{"memories": [...], "next_id": n}`. -/
structure MemStore where
  memories : List Memory
  next_id : Nat
deriving DecidableEq, Repr

/-- The default document `{"memories": [], "next_id": 1}`. -/
def emptyStore : MemStore := ⟨[], 1⟩

/-- Loader `load_memories`: parse the file, recovering the empty default on a
missing file, a JSON decode error, or an I/O error. -/
def load_memories : RawFile MemStore → MemStore
  | .wellFormed d => d
  | _ => emptyStore

/-- Id allocation `generate_id`: render `mem_%04d` from `next_id` and increment the
counter. -/
def generate_id (s : MemStore) : String × MemStore :=
  ("mem_" ++ pad4 s.next_id, { s with next_id := s.next_id + 1 })

/-- The id `generate_id` assigns when the counter reads `n`. -/
def memId (n : Nat) : String := "mem_" ++ pad4 n

/-- Tag parsing `parse_tags`: split a comma-separated string, keep nonblank segments,
strip and lowercase each. -/
def parse_tags : Option String → List String
  | none => []
  | some s =>
    if s = "" then []
    else ((s.splitOn (",")).filter (fun t => t.trim ≠ "")).map (fun t => strLower t.trim)

/-- Python `params.importance or 50`: `None` (and the falsy 0,
excluded by validation) becomes the default 50. -/
def importanceOr50 : Option Nat → Nat
  | none => 50
  | some i => if i = 0 then 50 else i

/-- Outcome of one memory tool call: the persisted document after the
call, whether `save_memories` ran, and the returned message. -/
structure ToolResult where
  store : MemStore
  saved : Bool
  message : String
deriving Repr

/-- First 100 characters of the content plus an ellipsis when longer,
as in `ea_forget`'s deletion message. -/
def preview100 (s : String) : String :=
  let p := String.mk (s.data.take 100)
  if s.data.length > 100 then p ++ "..." else p

/-- Tool `ea_remember` after input validation, given the loaded store and the
current UTC time rendered in ISO-8601. -/
def ea_remember (store : MemStore) (content : String) (tags : Option String)
    (importance : Option Nat) (now : String) : ToolResult :=
  let tag_list := parse_tags tags
  let imp := importanceOr50 importance
  let (mid, data) := generate_id store
  let memory : Memory := ⟨mid, content, tag_list, imp, now⟩
  let data := { data with memories := data.memories ++ [memory] }
  let tag_display := if tag_list = [] then "none" else String.intercalate (", ") tag_list
  { store := data, saved := true,
    message := "Remembered: " ++ mid ++ "\nTags: " ++ tag_display ++
      "\nImportance: " ++ toString imp ++ "/100\nCreated: " ++
      String.mk (now.data.take 10) }

/-- The filtering loop of `ea_recall`: keep memories whose lowercased
content contains the lowercased query and, when a tag filter is given,
sharing at least one tag with it. -/
def recallMatches (store : MemStore) (query : String) (tags : Option String) :
    List Memory :=
  let filter_tags := parse_tags tags
  let query_lower := strLower query
  store.memories.filter (fun m =>
    strHas query_lower (strLower m.content) &&
    (filter_tags.isEmpty || filter_tags.any (fun t => m.tags.contains t)))

/-- The sort key of `ea_recall`, `(-importance, created_at)` compared
ascending: higher importance first, then earlier `created_at`. -/
def recallLe (m1 m2 : Memory) : Bool :=
  decide (m2.importance < m1.importance) ||
    (decide (m1.importance = m2.importance) && strLe m1.created_at m2.created_at)

/-- The result list of `ea_recall`: matches, stable-sorted by the recall
key, truncated to `limit`. -/
def recallResults (store : MemStore) (query : String) (tags : Option String)
    (limit : Nat) : List Memory :=
  ((recallMatches store query tags).mergeSort recallLe).take limit

/-- The tag-filtering loop of `ea_list` (same OR semantics as recall,
no text query). -/
def listFiltered (store : MemStore) (tags : Option String) : List Memory :=
  let filter_tags := parse_tags tags
  store.memories.filter (fun m =>
    filter_tags.isEmpty || filter_tags.any (fun t => m.tags.contains t))

/-- The sort key of `ea_list`: `created_at` descending (newest first),
stable. -/
def listLe (m1 m2 : Memory) : Bool := strLe m2.created_at m1.created_at

/-- The full ordered result set of `ea_list` before pagination. -/
def listSorted (store : MemStore) (tags : Option String) : List Memory :=
  (listFiltered store tags).mergeSort listLe

/-- One page of `ea_list`: the slice `results[offset : offset + limit]`. -/
def listPage (store : MemStore) (tags : Option String) (limit offset : Nat) :
    List Memory :=
  ((listSorted store tags).drop offset).take limit

/-- The linear search-and-pop of `ea_forget`: the first memory whose id
matches, together with the remaining list, when one exists. -/
def popById : List Memory → String → Option (Memory × List Memory)
  | [], _ => none
  | m :: ms, mid =>
    if m.id = mid then some (m, ms)
    else
      match popById ms mid with
      | some (r, rest) => some (r, m :: rest)
      | none => none

/-- Tool `ea_forget` after input validation, given the loaded store. -/
def ea_forget (store : MemStore) (memory_id : String) (confirm : Bool) :
    ToolResult :=
  if !confirm then
    ⟨store, false, "Set confirm=True to delete. This action cannot be undone."⟩
  else
    match popById store.memories memory_id with
    | some (removed, rest) =>
      ⟨{ store with memories := rest }, true,
        "Deleted: " ++ memory_id ++ "\nContent was: " ++ preview100 removed.content⟩
    | none =>
      ⟨store, false,
        "Memory not found: " ++ memory_id ++ ". Use ea_list to see available memory IDs."⟩

/-- One memory-mutating tool call, for reasoning about call sequences. -/
inductive MemOp where
  | remember (content : String) (tags : Option String) (importance : Option Nat)
      (now : String)
  | forget (memory_id : String) (confirm : Bool)

/-- The persisted store after one tool call. -/
def applyOp (s : MemStore) : MemOp → MemStore
  | .remember c t i now => (ea_remember s c t i now).store
  | .forget mid confirm => (ea_forget s mid confirm).store

/-- The persisted store after a sequence of tool calls. -/
def runOps (s : MemStore) : List MemOp → MemStore
  | [] => s
  | op :: ops => runOps (applyOp s op) ops

/-- The ids assigned by the `remember` calls of a sequence, in call order
(each is the id `generate_id` hands out at that point). -/
def assignedIds (s : MemStore) : List MemOp → List String
  | [] => []
  | .remember c t i now :: ops =>
    (generate_id s).1 :: assignedIds (ea_remember s c t i now).store ops
  | .forget mid confirm :: ops => assignedIds (ea_forget s mid confirm).store ops

/-- The number of `remember` calls in a sequence. -/
def rememberCount : List MemOp → Nat
  | [] => 0
  | .remember _ _ _ _ :: ops => rememberCount ops + 1
  | .forget _ _ :: ops => rememberCount ops

end EAMemory

namespace EAJournal

/-- The six valid journal entry types, in canonical declaration order. -/
inductive EntryType where
  | work
  | decision
  | blocker
  | note
  | win
  | learning
deriving DecidableEq, Repr

/-- The string value of an entry type as stored in the JSON file. -/
def EntryType.value : EntryType → String
  | .work => "work"
  | .decision => "decision"
  | .blocker => "blocker"
  | .note => "note"
  | .win => "win"
  | .learning => "learning"

/-- One journal entry: an element of a daily `YYYY-MM-DD.json` array. -/
structure Entry where
  id : String
  content : String
  type : String
  project : Option String
  timestamp : String
deriving DecidableEq, Repr

/-- Loader `load_journal`: parse a day's file, recovering the empty list on a
missing file, a JSON decode error, or an I/O error. -/
def load_journal : RawFile (List Entry) → List Entry
  | .wellFormed es => es
  | _ => []

/-- The validated input and ambient clock values of one `ea_log` call:
`hms` is `now.strftime("%H%M%S")`, `iso` is `now.isoformat()`, and
`hashv` stands for Python's (randomized, decorative-only)
`hash(content)`. -/
structure LogCall where
  content : String
  entry_type : EntryType
  project : Option String
  hms : String
  iso : String
  hashv : Nat

/-- The entry record `ea_log` builds from one call. -/
def mkLogEntry (c : LogCall) : Entry :=
  { id := "entry_" ++ c.hms ++ "_" ++ pad4 (c.hashv % 10000),
    content := c.content,
    type := c.entry_type.value,
    project := c.project,
    timestamp := c.iso }

/-- The day file after one `ea_log` call: load, append, save. -/
def ea_log_day (entries : List Entry) (c : LogCall) : List Entry :=
  entries ++ [mkLogEntry c]

/-- The day file after a sequence of same-day `ea_log` calls. -/
def runLogs : List Entry → List LogCall → List Entry
  | es, [] => es
  | es, c :: cs => runLogs (ea_log_day es c) cs

/-- An entry stamped with its source date (`entry["_date"] = d` in
`ea_review`); a date is embedded as its day number. -/
structure DatedEntry where
  entry : Entry
  srcDate : Int
deriving DecidableEq, Repr

/-- The date window of `ea_review`: a given `days` (validated 1..365 so
never falsy) takes precedence and yields the `days` consecutive days
ending today; otherwise a given (already validated) `date` yields that
single day; otherwise just today. -/
def reviewDates (today : Int) (days : Option Nat) (date : Option Int) : List Int :=
  match days with
  | some n => (List.range n).map (fun i => today - (i : Int))
  | none =>
    match date with
    | some d => [d]
    | none => [today]

/-- The collection loop of `ea_review`: load each date's file in window
order and stamp every entry with its source date. -/
def collectEntries (files : Int → RawFile (List Entry)) (dates : List Int) :
    List DatedEntry :=
  (dates.map (fun d => (load_journal (files d)).map (fun e => ⟨e, d⟩))).flatten

/-- The sort of `ea_review`: timestamp descending (newest first),
stable. -/
def reviewLe (e1 e2 : DatedEntry) : Bool :=
  strLe e2.entry.timestamp e1.entry.timestamp

/-- The sorted entry list `ea_review` renders: window union, optional
type filter, then the stable descending timestamp sort. -/
def reviewEntries (files : Int → RawFile (List Entry)) (today : Int)
    (days : Option Nat) (date : Option Int) (entry_type : Option EntryType) :
    List DatedEntry :=
  let all := collectEntries files (reviewDates today days date)
  let all :=
    match entry_type with
    | some t => all.filter (fun (e : DatedEntry) => e.entry.type = t.value)
    | none => all
  all.mergeSort reviewLe

/-- The rendering loop of `ea_review`: a `## date` header is emitted each
time the stamped source date changes from the previous entry's. -/
def headerScan : List DatedEntry → Option Int → List Int
  | [], _ => []
  | e :: es, cur =>
    if cur = some e.srcDate then headerScan es cur
    else e.srcDate :: headerScan es (some e.srcDate)

/-- The sequence of date headers `ea_review` emits over its sorted
entry list. -/
def reviewHeaders (es : List DatedEntry) : List Int := headerScan es none

end EAJournal

namespace EAPrompts

/-- One declared argument of a prompt template. -/
structure PromptArg where
  name : String
  description : String
  required : Bool
deriving DecidableEq, Repr

/-- One prompt template (built-in or custom). -/
structure Prompt where
  name : String
  description : String
  template : String
  arguments : List PromptArg
  builtin : Bool
  created_at : Option String
deriving DecidableEq, Repr

/-- The five built-in templates, as an association list in declaration
order (`BUILTIN_PROMPTS` in the source). -/
def BUILTIN_PROMPTS : List (String × Prompt) :=
  [("code-review",
    { name := "code-review",
      description := "Review code for issues, bugs, and improvements",
      template := "Review the following code for:\n1. Potential bugs or errors\n2. Security vulnerabilities\n3. Performance issues\n4. Code style and readability\n5. Suggested improvements\n\nCode to review:\n{code}\n\nProvide specific, actionable feedback.",
      arguments := [⟨"code", "The code to review", true⟩],
      builtin := true, created_at := none }),
   ("explain-code",
    { name := "explain-code",
      description := "Explain what code does in plain English",
      template := "Explain the following code in plain English, suitable for a beginner:\n\n1. What does this code do overall?\n2. Break down each major section\n3. Explain any complex or unusual patterns\n4. Mention any potential issues or edge cases\n\nCode to explain:\n{code}",
      arguments := [⟨"code", "The code to explain", true⟩],
      builtin := true, created_at := none }),
   ("write-tests",
    { name := "write-tests",
      description := "Generate test cases for code",
      template := "Generate comprehensive test cases for the following code:\n\n1. Unit tests for each function/method\n2. Edge cases and boundary conditions\n3. Error handling scenarios\n4. Integration points (if applicable)\n\nUse appropriate testing framework based on the language.\n\nCode to test:\n{code}",
      arguments := [⟨"code", "The code to test", true⟩],
      builtin := true, created_at := none }),
   ("refactor",
    { name := "refactor",
      description := "Suggest refactoring improvements",
      template := "Analyze this code for refactoring opportunities:\n\n1. DRY (Don\x27t Repeat Yourself) violations\n2. Functions that are too long\n3. Poor naming\n4. Missing abstractions\n5. Simplification opportunities\n\nProvide the refactored version with explanations.\n\nCode to refactor:\n{code}",
      arguments := [⟨"code", "The code to refactor", true⟩],
      builtin := true, created_at := none }),
   ("debug",
    { name := "debug",
      description := "Help debug an error or issue",
      template := "Help debug this issue:\n\nError/Problem:\n{error}\n\nRelevant code:\n{code}\n\nSteps to reproduce (if known):\n{steps}\n\nAnalyze and suggest:\n1. Likely cause of the issue\n2. How to fix it\n3. How to prevent similar issues",
      arguments := [⟨"error", "The error message or problem description", true⟩,
                    ⟨"code", "The relevant code", true⟩,
                    ⟨"steps", "Steps to reproduce (optional)", false⟩],
      builtin := true, created_at := none })]

/-- The `custom_prompts.json` document: a JSON object mapping prompt
name to prompt, embedded as an insertion-ordered association list with
distinct keys (Python dict semantics). -/
abbrev PromptMap : Type := List (String × Prompt)

/-- Loader `load_custom_prompts`: parse the file, recovering the empty map on a
missing file, a JSON decode error, or an I/O error. -/
def load_custom_prompts : RawFile PromptMap → PromptMap
  | .wellFormed m => m
  | _ => []

/-- Python `name in BUILTIN_PROMPTS` (dict key membership). -/
def isBuiltinName (name : String) : Bool :=
  (BUILTIN_PROMPTS.lookup name).isSome

/-- Python dict assignment `d[k] = v`: replace the value in place when
the key exists, else append the pair. -/
def dictSet : List (String × Prompt) → String → Prompt → List (String × Prompt)
  | [], k, v => [(k, v)]
  | (k', v') :: rest, k, v =>
    if k' = k then (k, v) :: rest else (k', v') :: dictSet rest k v

/-- Python dict deletion `del d[k]` (keys are distinct, so removing the
first occurrence). -/
def dictDel : List (String × Prompt) → String → List (String × Prompt)
  | [], _ => []
  | (k', v') :: rest, k =>
    if k' = k then rest else (k', v') :: dictDel rest k

/-- Outcome of one prompt tool call: the persisted custom-prompt map
after the call, whether `save_custom_prompts` ran, and the message. -/
structure ToolResult where
  store : PromptMap
  saved : Bool
  message : String

/-- The argument-parsing loop of `ea_add_prompt`: each nonblank
comma-separated segment becomes a required argument with an
auto-generated description. -/
def parse_prompt_args : Option String → List PromptArg
  | none => []
  | some s =>
    if s = "" then []
    else ((s.splitOn (",")).filter (fun a => a.trim ≠ "")).map
      (fun a => ⟨a.trim, "Value for " ++ a.trim, true⟩)

/-- Tool `ea_add_prompt` after input validation (the name already matches
`^[a-z][a-z0-9-]*$` and all length bounds hold), given the loaded
custom-prompt map and the current UTC time. -/
def ea_add_prompt (store : PromptMap) (name description template : String)
    (arguments : Option String) (now : String) : ToolResult :=
  if isBuiltinName name then
    ⟨store, false,
      "Error: \x27" ++ name ++ "\x27 is a built-in prompt and cannot be overwritten."⟩
  else
    let arg_list := parse_prompt_args arguments
    let prompt : Prompt :=
      { name := name, description := description, template := template,
        arguments := arg_list, builtin := false, created_at := some now }
    let custom := dictSet store name prompt
    let args_display :=
      if arg_list = [] then "none"
      else String.intercalate (", ") (arg_list.map (·.name))
    ⟨custom, true,
      "Custom prompt added: " ++ name ++ "\nDescription: " ++ description ++
        "\nArguments: " ++ args_display ++ "\n\nUse with: /prompt " ++ name⟩

/-- Tool `ea_remove_prompt` after input validation, given the loaded
custom-prompt map. -/
def ea_remove_prompt (store : PromptMap) (name : String) (confirm : Bool) :
    ToolResult :=
  if !confirm then
    ⟨store, false, "Set confirm=True to delete. This cannot be undone."⟩
  else if isBuiltinName name then
    ⟨store, false,
      "Error: \x27" ++ name ++ "\x27 is a built-in prompt and cannot be removed."⟩
  else if (List.lookup name store).isNone then
    ⟨store, false,
      "Custom prompt not found: " ++ name ++ ". Use ea_list_prompts to see available prompts."⟩
  else
    ⟨dictDel store name, true, "Removed custom prompt: " ++ name⟩

end EAPrompts

/-! ### Order facts about the embedded Python string comparison -/

theorem charsLe_total : ∀ as bs : List Char, charsLe as bs = true ∨ charsLe bs as = true
  | [], _ => Or.inl rfl
  | _ :: _, [] => Or.inr rfl
  | a :: as, b :: bs => by
    rcases lt_trichotomy a b with h | h | h
    · left
      simp only [charsLe, if_pos h]
    · subst h
      simp only [charsLe, if_neg (lt_irrefl a)]
      exact charsLe_total as bs
    · right
      simp only [charsLe, if_pos h]

theorem charsLe_trans : ∀ as bs cs : List Char,
    charsLe as bs = true → charsLe bs cs = true → charsLe as cs = true
  | [], _, _, _, _ => rfl
  | _ :: _, [], _, h, _ => by simp [charsLe] at h
  | _ :: _, _ :: _, [], _, h => by simp [charsLe] at h
  | a :: as, b :: bs, c :: cs, h1, h2 => by
    simp only [charsLe] at h1 h2 ⊢
    rcases lt_trichotomy a b with hab | hab | hab
    · rcases lt_trichotomy b c with hbc | hbc | hbc
      · rw [if_pos (hab.trans hbc)]
      · subst hbc
        rw [if_pos hab]
      · rw [if_neg (asymm hbc), if_pos hbc] at h2
        exact Bool.noConfusion h2
    · subst hab
      rw [if_neg (lt_irrefl a), if_neg (lt_irrefl a)] at h1
      rcases lt_trichotomy a c with hac | hac | hac
      · rw [if_pos hac]
      · subst hac
        rw [if_neg (lt_irrefl a), if_neg (lt_irrefl a)] at h2
        rw [if_neg (lt_irrefl a), if_neg (lt_irrefl a)]
        exact charsLe_trans as bs cs h1 h2
      · rw [if_neg (asymm hac), if_pos hac] at h2
        exact Bool.noConfusion h2
    · rw [if_neg (asymm hab), if_pos hab] at h1
      exact Bool.noConfusion h1

theorem charsLt_not_le : ∀ as bs : List Char,
    charsLt as bs = true → charsLe bs as = true → False
  | [], [], h, _ => by simp [charsLt] at h
  | [], _ :: _, _, h => by simp [charsLe] at h
  | _ :: _, [], h, _ => by simp [charsLt] at h
  | a :: as, b :: bs, h1, h2 => by
    simp only [charsLt] at h1
    simp only [charsLe] at h2
    rcases lt_trichotomy a b with hab | hab | hab
    · rw [if_neg (asymm hab), if_pos hab] at h2
      exact Bool.noConfusion h2
    · subst hab
      rw [if_neg (lt_irrefl a), if_neg (lt_irrefl a)] at h1
      rw [if_neg (lt_irrefl a), if_neg (lt_irrefl a)] at h2
      exact charsLt_not_le as bs h1 h2
    · rw [if_neg (asymm hab), if_pos hab] at h1
      exact Bool.noConfusion h1

theorem strLe_total (s t : String) : strLe s t = true ∨ strLe t s = true :=
  charsLe_total s.data t.data

theorem strLe_trans {s t u : String} (h1 : strLe s t = true) (h2 : strLe t u = true) :
    strLe s u = true :=
  charsLe_trans s.data t.data u.data h1 h2

theorem strLt_not_le {s t : String} (h1 : strLt s t = true) (h2 : strLe t s = true) :
    False :=
  charsLt_not_le s.data t.data h1 h2

namespace EAMemory

/-! ### The recall and list sort keys are total preorders -/

theorem recallLe_iff (m1 m2 : Memory) :
    recallLe m1 m2 = true ↔
      m2.importance < m1.importance ∨
        (m1.importance = m2.importance ∧ strLe m1.created_at m2.created_at = true) := by
  simp [recallLe]

theorem recallLe_trans : ∀ a b c : Memory,
    recallLe a b = true → recallLe b c = true → recallLe a c = true := by
  intro a b c h1 h2
  rw [recallLe_iff] at h1 h2 ⊢
  rcases h1 with h1 | ⟨h1e, h1s⟩
  · rcases h2 with h2 | ⟨h2e, _⟩
    · exact Or.inl (h2.trans h1)
    · exact Or.inl (h2e ▸ h1)
  · rcases h2 with h2 | ⟨h2e, h2s⟩
    · exact Or.inl (h1e ▸ h2)
    · exact Or.inr ⟨h1e.trans h2e, strLe_trans h1s h2s⟩

theorem recallLe_total : ∀ a b : Memory, (recallLe a b || recallLe b a) = true := by
  intro a b
  rw [Bool.or_eq_true, recallLe_iff, recallLe_iff]
  rcases lt_trichotomy a.importance b.importance with h | h | h
  · exact Or.inr (Or.inl h)
  · rcases strLe_total a.created_at b.created_at with hs | hs
    · exact Or.inl (Or.inr ⟨h, hs⟩)
    · exact Or.inr (Or.inr ⟨h.symm, hs⟩)
  · exact Or.inl (Or.inl h)

theorem listLe_trans : ∀ a b c : Memory,
    listLe a b = true → listLe b c = true → listLe a c = true :=
  fun _ _ _ h1 h2 => strLe_trans h2 h1

theorem listLe_total : ∀ a b : Memory, (listLe a b || listLe b a) = true := by
  intro a b
  rw [Bool.or_eq_true]
  exact (strLe_total b.created_at a.created_at).imp id id

end EAMemory

/-- C1: for every store and every recall call, the returned results are the
query-and-tag matches sorted by importance descending with ties among equal
importance broken by creation timestamp ascending (earlier-created first),
truncated to the given limit. -/
theorem EAMemory.recall_sorted_importance_desc_created_asc
    (store : EAMemory.MemStore) (query : String) (tags : Option String)
    (limit : Nat) :
    ∃ L : List EAMemory.Memory,
      L.Perm (EAMemory.recallMatches store query tags) ∧
      L.Pairwise (fun m1 m2 =>
        m2.importance < m1.importance ∨
          (m1.importance = m2.importance ∧
            strLe m1.created_at m2.created_at = true)) ∧
      EAMemory.recallResults store query tags limit = L.take limit := by
  refine ⟨(EAMemory.recallMatches store query tags).mergeSort EAMemory.recallLe,
    List.mergeSort_perm _ _, ?_, rfl⟩
  have h := @List.sorted_mergeSort _ EAMemory.recallLe
    EAMemory.recallLe_trans EAMemory.recallLe_total
    (EAMemory.recallMatches store query tags)
  exact h.imp (fun hab => (EAMemory.recallLe_iff _ _).mp hab)

/-- Concatenating the length-`L` slices at offsets `0, L, 2L, ...` recovers
the whole list, as soon as the page count covers its length. -/
theorem flatten_pages {α : Type} (L : Nat) :
    ∀ (n : Nat) (l : List α), l.length ≤ n * L →
      ((List.range n).map (fun k => (l.drop (k * L)).take L)).flatten = l := by
  intro n
  induction n with
  | zero =>
    intro l hl
    have : l = [] := List.length_eq_zero.mp (Nat.le_zero.mp (by simpa using hl))
    simp [this]
  | succ n ih =>
    intro l hl
    rw [List.range_succ_eq_map, List.map_cons, List.flatten_cons, List.map_map]
    have h0 : (l.drop (0 * L)).take L = l.take L := by simp
    rw [h0]
    have hfun : ∀ k ∈ List.range n,
        ((fun k => (l.drop (k * L)).take L) ∘ Nat.succ) k =
          (((l.drop L).drop (k * L)).take L) := by
      intro k _
      simp only [Function.comp_apply]
      rw [Nat.succ_mul, Nat.add_comm, ← List.drop_drop]
    rw [List.map_congr_left hfun]
    rw [ih (l.drop L) (by
      have hs : (n + 1) * L = n * L + L := Nat.succ_mul n L
      rw [List.length_drop]
      omega)]
    exact List.take_append_drop L l

/-- C5: repeatedly listing with a fixed tag filter and page size `L ≥ 1`,
starting at offset 0 and advancing the offset by the page length until a
page is empty, concatenates to exactly the full tag-filtered result set
sorted newest-first — no duplicates, no omissions.  (Every non-final page
has exactly `L` items, so the visited offsets are `0, L, 2L, ...`; the page
at the total length is empty, stopping the iteration.) -/
theorem EAMemory.list_pagination_complete
    (store : EAMemory.MemStore) (tags : Option String) (L : Nat) (hL : 1 ≤ L) :
    ((List.range (((EAMemory.listSorted store tags).length + L - 1) / L)).map
        (fun k => EAMemory.listPage store tags L (k * L))).flatten =
      EAMemory.listSorted store tags
    ∧ EAMemory.listPage store tags L (EAMemory.listSorted store tags).length = []
    ∧ (EAMemory.listSorted store tags).Perm (EAMemory.listFiltered store tags)
    ∧ (EAMemory.listSorted store tags).Pairwise
        (fun m1 m2 => strLe m2.created_at m1.created_at = true) := by
  refine ⟨?_, ?_, List.mergeSort_perm _ _, ?_⟩
  · have hlen : (EAMemory.listSorted store tags).length ≤
        (((EAMemory.listSorted store tags).length + L - 1) / L) * L := by
      rw [Nat.mul_comm]
      have hd := Nat.div_add_mod ((EAMemory.listSorted store tags).length + L - 1) L
      have hm : ((EAMemory.listSorted store tags).length + L - 1) % L < L :=
        Nat.mod_lt _ (by omega)
      generalize L * (((EAMemory.listSorted store tags).length + L - 1) / L) = M at hd ⊢
      omega
    have h := flatten_pages L (((EAMemory.listSorted store tags).length + L - 1) / L)
      (EAMemory.listSorted store tags) hlen
    simpa [EAMemory.listPage] using h
  · simp [EAMemory.listPage, List.drop_length]
  · exact (@List.sorted_mergeSort _ EAMemory.listLe
      EAMemory.listLe_trans EAMemory.listLe_total
      (EAMemory.listFiltered store tags)).imp (fun hab => hab)

/-- Witness for C5: the pagination property applied at a concrete store
and page size 2, its hypothesis discharged by computation. -/
theorem EAMemory.list_pagination_complete_witness :
    ((List.range (((EAMemory.listSorted ⟨[], 1⟩ none).length + 2 - 1) / 2)).map
        (fun k => EAMemory.listPage ⟨[], 1⟩ none 2 (k * 2))).flatten =
      EAMemory.listSorted ⟨[], 1⟩ none
    ∧ EAMemory.listPage ⟨[], 1⟩ none 2 (EAMemory.listSorted ⟨[], 1⟩ none).length = []
    ∧ (EAMemory.listSorted ⟨[], 1⟩ none).Perm (EAMemory.listFiltered ⟨[], 1⟩ none)
    ∧ (EAMemory.listSorted ⟨[], 1⟩ none).Pairwise
        (fun m1 m2 => strLe m2.created_at m1.created_at = true) :=
  EAMemory.list_pagination_complete ⟨[], 1⟩ none 2 (by decide)

/-! ### The journal is append-only -/

/-- Running a sequence of same-day `ea_log` calls appends the calls'
entries, in call order, after whatever the day file already held. -/
theorem EAJournal.runLogs_eq (cs : List EAJournal.LogCall) :
    ∀ init : List EAJournal.Entry,
      EAJournal.runLogs init cs = init ++ cs.map EAJournal.mkLogEntry := by
  induction cs with
  | nil => intro init; simp [EAJournal.runLogs]
  | cons c cs ih =>
    intro init
    show EAJournal.runLogs (EAJournal.ea_log_day init c) cs = _
    rw [ih]
    simp [EAJournal.ea_log_day]

/-- C3: for every sequence of `N` log calls on the same UTC day starting
from an empty day file, the file afterwards contains exactly the `N`
entries built from the calls, in call order, and no log call alters or
removes entries already present (whatever a day file holds is left intact,
as a prefix, by any further sequence of log calls). -/
theorem EAJournal.log_append_only (cs : List EAJournal.LogCall) :
    EAJournal.runLogs [] cs = cs.map EAJournal.mkLogEntry
    ∧ (EAJournal.runLogs [] cs).length = cs.length
    ∧ ∀ (init : List EAJournal.Entry) (more : List EAJournal.LogCall),
        (EAJournal.runLogs init more).take init.length = init := by
  have h1 : EAJournal.runLogs [] cs = cs.map EAJournal.mkLogEntry := by
    simpa using EAJournal.runLogs_eq cs []
  refine ⟨h1, by rw [h1]; simp, ?_⟩
  intro init more
  rw [EAJournal.runLogs_eq more init]
  exact List.take_left init _

/-! ### Memory ids are sequential and never reused -/

/-- The store `ea_remember` persists: the new memory, carrying the id the
counter dictates, appended at the end, and the counter bumped by one. -/
theorem EAMemory.remember_store (s : EAMemory.MemStore) (c : String)
    (t : Option String) (i : Option Nat) (now : String) :
    (EAMemory.ea_remember s c t i now).store =
      ⟨s.memories ++ [⟨EAMemory.memId s.next_id, c, EAMemory.parse_tags t,
        EAMemory.importanceOr50 i, now⟩], s.next_id + 1⟩ := rfl

/-- Deletion via `ea_forget` never changes the id counter. -/
theorem EAMemory.forget_next_id (s : EAMemory.MemStore) (mid : String) (c : Bool) :
    (EAMemory.ea_forget s mid c).store.next_id = s.next_id := by
  unfold EAMemory.ea_forget
  split
  · rfl
  · split <;> rfl

/-- Everything left after `ea_forget`'s search-and-pop was already in the
store. -/
theorem EAMemory.popById_mem : ∀ (ms : List EAMemory.Memory) (mid : String)
    (r : EAMemory.Memory) (rest : List EAMemory.Memory),
    EAMemory.popById ms mid = some (r, rest) → ∀ x ∈ rest, x ∈ ms := by
  intro ms
  induction ms with
  | nil => intro mid r rest h; simp [EAMemory.popById] at h
  | cons m tl ih =>
    intro mid r rest h x hx
    by_cases hm : m.id = mid
    · rw [show EAMemory.popById (m :: tl) mid =
          if m.id = mid then some (m, tl) else
            match EAMemory.popById tl mid with
            | some (r, rest) => some (r, m :: rest)
            | none => none from rfl, if_pos hm] at h
      cases h
      exact List.mem_cons_of_mem _ hx
    · rw [show EAMemory.popById (m :: tl) mid =
          if m.id = mid then some (m, tl) else
            match EAMemory.popById tl mid with
            | some (r, rest) => some (r, m :: rest)
            | none => none from rfl, if_neg hm] at h
      cases hrec : EAMemory.popById tl mid with
      | none => rw [hrec] at h; cases h
      | some pr =>
        obtain ⟨pr1, pr2⟩ := pr
        rw [hrec] at h
        simp only [Option.some.injEq, Prod.mk.injEq] at h
        obtain ⟨hr, hrest⟩ := h
        subst hr
        subst hrest
        rcases List.mem_cons.mp hx with hx | hx
        · exact hx ▸ List.mem_cons_self m tl
        · exact List.mem_cons_of_mem _ (ih mid pr1 pr2 hrec x hx)

/-- After any memory tool call, every stored id was minted by a counter
value below the current one. -/
theorem EAMemory.applyOp_idBound (s : EAMemory.MemStore) (op : EAMemory.MemOp)
    (h : ∀ m ∈ s.memories, ∃ k, k < s.next_id ∧ m.id = EAMemory.memId k) :
    ∀ m ∈ (EAMemory.applyOp s op).memories, ∃ k,
      k < (EAMemory.applyOp s op).next_id ∧ m.id = EAMemory.memId k := by
  cases op with
  | remember c t i now =>
    intro m hm
    rw [show EAMemory.applyOp s (.remember c t i now) =
        (EAMemory.ea_remember s c t i now).store from rfl,
      EAMemory.remember_store] at hm ⊢
    rcases List.mem_append.mp hm with hm | hm
    · obtain ⟨k, hk, hid⟩ := h m hm
      exact ⟨k, Nat.lt_succ_of_lt hk, hid⟩
    · rw [List.mem_singleton.mp hm]
      exact ⟨s.next_id, Nat.lt_succ_self _, rfl⟩
  | forget mid confirm =>
    intro m hm
    rw [show EAMemory.applyOp s (.forget mid confirm) =
        (EAMemory.ea_forget s mid confirm).store from rfl] at hm ⊢
    rw [EAMemory.forget_next_id]
    unfold EAMemory.ea_forget at hm
    rcases hc : confirm with _ | _
    · subst hc; exact h m hm
    · subst hc
      simp only [Bool.not_true] at hm
      rcases hrec : EAMemory.popById s.memories mid with _ | pr
      · rw [hrec] at hm; exact h m hm
      · obtain ⟨pr1, pr2⟩ := pr
        rw [hrec] at hm
        exact h m (EAMemory.popById_mem s.memories mid pr1 pr2 hrec m hm)

/-- The id-bound invariant holds after any sequence of memory tool calls. -/
theorem EAMemory.runOps_idBound : ∀ (ops : List EAMemory.MemOp) (s : EAMemory.MemStore),
    (∀ m ∈ s.memories, ∃ k, k < s.next_id ∧ m.id = EAMemory.memId k) →
    ∀ m ∈ (EAMemory.runOps s ops).memories, ∃ k,
      k < (EAMemory.runOps s ops).next_id ∧ m.id = EAMemory.memId k
  | [], _, h => h
  | op :: ops, s, h => EAMemory.runOps_idBound ops _ (EAMemory.applyOp_idBound s op h)

/-- The ids handed out along a call sequence are the consecutive counter
values starting at the initial `next_id`. -/
theorem EAMemory.assignedIds_eq : ∀ (ops : List EAMemory.MemOp) (s : EAMemory.MemStore),
    EAMemory.assignedIds s ops =
      (List.range (EAMemory.rememberCount ops)).map
        (fun k => EAMemory.memId (s.next_id + k))
  | [], _ => rfl
  | .remember c t i now :: ops, s => by
    show (EAMemory.generate_id s).1 ::
        EAMemory.assignedIds (EAMemory.ea_remember s c t i now).store ops = _
    rw [EAMemory.assignedIds_eq ops]
    rw [show (EAMemory.ea_remember s c t i now).store.next_id = s.next_id + 1 from rfl]
    rw [show EAMemory.rememberCount (.remember c t i now :: ops) =
        EAMemory.rememberCount ops + 1 from rfl]
    rw [List.range_succ_eq_map, List.map_cons, List.map_map]
    refine congrArg₂ _ (congrArg EAMemory.memId (by omega)) ?_
    exact List.map_congr_left (fun k _ => congrArg EAMemory.memId (by omega))
  | .forget mid confirm :: ops, s => by
    show EAMemory.assignedIds (EAMemory.ea_forget s mid confirm).store ops = _
    rw [EAMemory.assignedIds_eq ops, EAMemory.forget_next_id]
    rfl

/-- C2: over any sequence of remember calls interleaved with forget calls
starting from the fresh store, the ids assigned by the remember calls are
`memId 1, memId 2, ...` (`mem_0001, mem_0002, ...`) in order, strictly
increasing by one with no reuse; afterwards the counter strictly bounds
every stored id's numeric suffix; and no forget call ever changes the
counter. -/
theorem EAMemory.remember_ids_sequential (ops : List EAMemory.MemOp) :
    EAMemory.assignedIds EAMemory.emptyStore ops =
      (List.range (EAMemory.rememberCount ops)).map
        (fun k => EAMemory.memId (1 + k))
    ∧ EAMemory.memId 1 = "mem_0001" ∧ EAMemory.memId 2 = "mem_0002"
    ∧ (∀ m ∈ (EAMemory.runOps EAMemory.emptyStore ops).memories, ∃ k,
        k < (EAMemory.runOps EAMemory.emptyStore ops).next_id ∧
          m.id = EAMemory.memId k)
    ∧ (∀ (s : EAMemory.MemStore) (mid : String) (c : Bool),
        (EAMemory.ea_forget s mid c).store.next_id = s.next_id) := by
  refine ⟨?_, by decide, by decide, ?_, fun s mid c => EAMemory.forget_next_id s mid c⟩
  · simpa using EAMemory.assignedIds_eq ops EAMemory.emptyStore
  · exact EAMemory.runOps_idBound ops EAMemory.emptyStore (by simp [EAMemory.emptyStore])

/-! ### Read repair and the forget confirmation gate -/

/-- C6: loading any of the three persisted stores from a missing,
unreadable, or malformed file yields the empty default structure — the
failure is never raised — so reads over such a file behave as over an
empty store. -/
theorem load_read_repairs_to_empty :
    (EAMemory.load_memories .missing = EAMemory.emptyStore
      ∧ EAMemory.load_memories .unreadable = EAMemory.emptyStore
      ∧ EAMemory.load_memories .malformed = EAMemory.emptyStore)
    ∧ (EAJournal.load_journal .missing = []
      ∧ EAJournal.load_journal .unreadable = []
      ∧ EAJournal.load_journal .malformed = [])
    ∧ (EAPrompts.load_custom_prompts .missing = ([] : EAPrompts.PromptMap)
      ∧ EAPrompts.load_custom_prompts .unreadable = ([] : EAPrompts.PromptMap)
      ∧ EAPrompts.load_custom_prompts .malformed = ([] : EAPrompts.PromptMap))
    ∧ (∀ (q : String) (t : Option String) (l : Nat),
        EAMemory.recallResults (EAMemory.load_memories .malformed) q t l =
          EAMemory.recallResults EAMemory.emptyStore q t l) :=
  ⟨⟨rfl, rfl, rfl⟩, ⟨rfl, rfl, rfl⟩, ⟨rfl, rfl, rfl⟩, fun _ _ _ => rfl⟩

/-- The search-and-pop of `ea_forget` removes exactly the first match. -/
theorem EAMemory.popById_spec : ∀ (pre : List EAMemory.Memory) (m : EAMemory.Memory)
    (post : List EAMemory.Memory) (mid : String),
    (∀ x ∈ pre, x.id ≠ mid) → m.id = mid →
    EAMemory.popById (pre ++ m :: post) mid = some (m, pre ++ post)
  | [], m, post, mid, _, hm => by
    show (if m.id = mid then some (m, post) else _) = _
    rw [if_pos hm]
    rfl
  | p :: pre, m, post, mid, hpre, hm => by
    show (if p.id = mid then some (p, pre ++ m :: post) else
        match EAMemory.popById (pre ++ m :: post) mid with
        | some (r, rest) => some (r, p :: rest)
        | none => none) = _
    rw [if_neg (hpre p (List.mem_cons_self p pre))]
    rw [EAMemory.popById_spec pre m post mid
      (fun x hx => hpre x (List.mem_cons_of_mem p hx)) hm]
    rfl

/-- The search-and-pop of `ea_forget` finds nothing when no stored id
matches. -/
theorem EAMemory.popById_eq_none : ∀ (ms : List EAMemory.Memory) (mid : String),
    (∀ m ∈ ms, m.id ≠ mid) → EAMemory.popById ms mid = none
  | [], _, _ => rfl
  | m :: tl, mid, h => by
    show (if m.id = mid then some (m, tl) else
        match EAMemory.popById tl mid with
        | some (r, rest) => some (r, m :: rest)
        | none => none) = none
    rw [if_neg (h m (List.mem_cons_self m tl))]
    rw [EAMemory.popById_eq_none tl mid (fun x hx => h x (List.mem_cons_of_mem m hx))]

/-- C7: an unconfirmed forget leaves the store untouched, saves nothing,
and returns the message instructing the caller to set confirm; the same
call confirmed on an id the store holds removes exactly that memory (the
first match), persists, and keeps the counter. -/
theorem EAMemory.forget_confirm_gate :
    (∀ (store : EAMemory.MemStore) (mid : String),
      EAMemory.ea_forget store mid false =
        ⟨store, false, "Set confirm=True to delete. This action cannot be undone."⟩)
    ∧ (∀ (store : EAMemory.MemStore) (mid : String) (pre : List EAMemory.Memory)
        (m : EAMemory.Memory) (post : List EAMemory.Memory),
        store.memories = pre ++ m :: post → (∀ x ∈ pre, x.id ≠ mid) → m.id = mid →
        (EAMemory.ea_forget store mid true).store.memories = pre ++ post ∧
        (EAMemory.ea_forget store mid true).saved = true ∧
        (EAMemory.ea_forget store mid true).store.next_id = store.next_id) := by
  constructor
  · intro store mid
    rfl
  · intro store mid pre m post hsplit hpre hm
    have hpop : EAMemory.popById store.memories mid = some (m, pre ++ post) := by
      rw [hsplit]
      exact EAMemory.popById_spec pre m post mid hpre hm
    have hdef : EAMemory.ea_forget store mid true =
        match EAMemory.popById store.memories mid with
        | some (removed, rest) =>
          ⟨{ store with memories := rest }, true,
            "Deleted: " ++ mid ++ "\nContent was: " ++ EAMemory.preview100 removed.content⟩
        | none =>
          ⟨store, false,
            "Memory not found: " ++ mid ++ ". Use ea_list to see available memory IDs."⟩ := rfl
    rw [hdef, hpop]
    exact ⟨rfl, rfl, rfl⟩

/-- Witness for C7: the gate applied at a one-memory store. -/
theorem EAMemory.forget_confirm_gate_witness :
    EAMemory.ea_forget ⟨[⟨"mem_0001", "hello", [], 50, "t"⟩], 2⟩ "mem_0001" false =
      ⟨⟨[⟨"mem_0001", "hello", [], 50, "t"⟩], 2⟩, false,
        "Set confirm=True to delete. This action cannot be undone."⟩
    ∧ (EAMemory.ea_forget ⟨[⟨"mem_0001", "hello", [], 50, "t"⟩], 2⟩ "mem_0001"
        true).store.memories = [] :=
  ⟨EAMemory.forget_confirm_gate.1 _ _, by
    have h := (EAMemory.forget_confirm_gate.2
      ⟨[⟨"mem_0001", "hello", [], 50, "t"⟩], 2⟩ "mem_0001" []
      ⟨"mem_0001", "hello", [], 50, "t"⟩ []
      rfl (fun x hx => absurd hx (List.not_mem_nil x)) rfl).1
    simpa using h⟩

/-- C10: a confirmed forget of an id the store does not hold returns the
not-found message and performs no write: the store (memories and counter)
is exactly as before. -/
theorem EAMemory.forget_not_found_no_write (store : EAMemory.MemStore) (mid : String)
    (h : ∀ m ∈ store.memories, m.id ≠ mid) :
    EAMemory.ea_forget store mid true =
      ⟨store, false,
        "Memory not found: " ++ mid ++ ". Use ea_list to see available memory IDs."⟩ := by
  have hpop := EAMemory.popById_eq_none store.memories mid h
  have hdef : EAMemory.ea_forget store mid true =
      match EAMemory.popById store.memories mid with
      | some (removed, rest) =>
        ⟨{ store with memories := rest }, true,
          "Deleted: " ++ mid ++ "\nContent was: " ++ EAMemory.preview100 removed.content⟩
      | none =>
        ⟨store, false,
          "Memory not found: " ++ mid ++ ". Use ea_list to see available memory IDs."⟩ := rfl
  rw [hdef, hpop]

/-- Witness for C10: a confirmed forget of an absent id at a concrete
store. -/
theorem EAMemory.forget_not_found_no_write_witness :
    EAMemory.ea_forget ⟨[⟨"mem_0001", "note", [], 50, "t"⟩], 2⟩ "mem_0002" true =
      ⟨⟨[⟨"mem_0001", "note", [], 50, "t"⟩], 2⟩, false,
        "Memory not found: " ++ "mem_0002" ++ ". Use ea_list to see available memory IDs."⟩ :=
  EAMemory.forget_not_found_no_write ⟨[⟨"mem_0001", "note", [], 50, "t"⟩], 2⟩ "mem_0002"
    (fun m hm => by rw [List.mem_singleton.mp hm]; decide)

/-! ### Custom-prompt dictionary operations -/

theorem EAPrompts.dictSet_lookup_self : ∀ (m : EAPrompts.PromptMap) (k : String)
    (v : EAPrompts.Prompt), List.lookup k (EAPrompts.dictSet m k v) = some v
  | [], k, v => by simp [EAPrompts.dictSet, List.lookup]
  | (k0, v0) :: rest, k, v => by
    by_cases hk : k0 = k
    · rw [show EAPrompts.dictSet ((k0, v0) :: rest) k v =
          if k0 = k then (k, v) :: rest else (k0, v0) :: EAPrompts.dictSet rest k v
          from rfl, if_pos hk]
      simp [List.lookup]
    · rw [show EAPrompts.dictSet ((k0, v0) :: rest) k v =
          if k0 = k then (k, v) :: rest else (k0, v0) :: EAPrompts.dictSet rest k v
          from rfl, if_neg hk]
      have hne : (k == k0) = false := beq_eq_false_iff_ne.mpr (fun he => hk he.symm)
      simp only [List.lookup, hne]
      exact EAPrompts.dictSet_lookup_self rest k v

theorem EAPrompts.dictSet_lookup_other : ∀ (m : EAPrompts.PromptMap) (k : String)
    (v : EAPrompts.Prompt) (k' : String), k' ≠ k →
    List.lookup k' (EAPrompts.dictSet m k v) = List.lookup k' m
  | [], k, v, k', hk' => by
    have hne : (k' == k) = false := beq_eq_false_iff_ne.mpr hk'
    simp [EAPrompts.dictSet, List.lookup, hne]
  | (k0, v0) :: rest, k, v, k', hk' => by
    by_cases hk : k0 = k
    · rw [show EAPrompts.dictSet ((k0, v0) :: rest) k v =
          if k0 = k then (k, v) :: rest else (k0, v0) :: EAPrompts.dictSet rest k v
          from rfl, if_pos hk]
      have hne : (k' == k) = false := beq_eq_false_iff_ne.mpr hk'
      have hne0 : (k' == k0) = false := beq_eq_false_iff_ne.mpr (hk ▸ hk')
      simp only [List.lookup, hne, hne0]
    · rw [show EAPrompts.dictSet ((k0, v0) :: rest) k v =
          if k0 = k then (k, v) :: rest else (k0, v0) :: EAPrompts.dictSet rest k v
          from rfl, if_neg hk]
      simp only [List.lookup]
      cases hbe : (k' == k0)
      · exact EAPrompts.dictSet_lookup_other rest k v k' hk'
      · rfl

theorem EAPrompts.dictDel_lookup_none : ∀ (m : EAPrompts.PromptMap) (k b : String),
    List.lookup b m = none → List.lookup b (EAPrompts.dictDel m k) = none
  | [], _, _, _ => by simp [EAPrompts.dictDel, List.lookup]
  | (k0, v0) :: rest, k, b, h => by
    simp only [List.lookup] at h
    cases hbe : (b == k0) with
    | true => rw [hbe] at h; cases h
    | false =>
      rw [hbe] at h
      by_cases hk : k0 = k
      · rw [show EAPrompts.dictDel ((k0, v0) :: rest) k =
            if k0 = k then rest else (k0, v0) :: EAPrompts.dictDel rest k
            from rfl, if_pos hk]
        exact h
      · rw [show EAPrompts.dictDel ((k0, v0) :: rest) k =
            if k0 = k then rest else (k0, v0) :: EAPrompts.dictDel rest k
            from rfl, if_neg hk]
        simp only [List.lookup, hbe]
        exact EAPrompts.dictDel_lookup_none rest k b h

/-- The store `ea_remove_prompt` persists is either untouched (gate or
rejection or not-found) or the old map with the name deleted. -/
theorem EAPrompts.remove_prompt_store_shape (store : EAPrompts.PromptMap)
    (name : String) (c : Bool) :
    (EAPrompts.ea_remove_prompt store name c).store = store ∨
    (EAPrompts.ea_remove_prompt store name c).store = EAPrompts.dictDel store name := by
  unfold EAPrompts.ea_remove_prompt
  split
  · exact Or.inl rfl
  · split
    · exact Or.inl rfl
    · split
      · exact Or.inl rfl
      · exact Or.inr rfl

/-- C8: adding a prompt under any built-in name is rejected without
mutating or saving the custom-prompt store; removing a built-in name,
even confirmed, is likewise rejected; and neither tool ever introduces a
built-in name into the custom-prompt file (the five built-in names being
code-review, explain-code, write-tests, refactor, debug). -/
theorem EAPrompts.builtin_protection :
    (∀ (store : EAPrompts.PromptMap) (name d t : String) (args : Option String)
        (now : String), EAPrompts.isBuiltinName name = true →
      EAPrompts.ea_add_prompt store name d t args now =
        ⟨store, false,
          "Error: \x27" ++ name ++ "\x27 is a built-in prompt and cannot be overwritten."⟩)
    ∧ (∀ (store : EAPrompts.PromptMap) (name : String),
        EAPrompts.isBuiltinName name = true →
      EAPrompts.ea_remove_prompt store name true =
        ⟨store, false,
          "Error: \x27" ++ name ++ "\x27 is a built-in prompt and cannot be removed."⟩)
    ∧ (EAPrompts.isBuiltinName ("code-review") = true
      ∧ EAPrompts.isBuiltinName ("explain-code") = true
      ∧ EAPrompts.isBuiltinName ("write-tests") = true
      ∧ EAPrompts.isBuiltinName ("refactor") = true
      ∧ EAPrompts.isBuiltinName ("debug") = true)
    ∧ (∀ (store : EAPrompts.PromptMap) (name d t : String) (args : Option String)
        (now : String),
        (∀ b, EAPrompts.isBuiltinName b = true → List.lookup b store = none) →
        ∀ b, EAPrompts.isBuiltinName b = true →
          List.lookup b (EAPrompts.ea_add_prompt store name d t args now).store = none)
    ∧ (∀ (store : EAPrompts.PromptMap) (name : String) (c : Bool),
        (∀ b, EAPrompts.isBuiltinName b = true → List.lookup b store = none) →
        ∀ b, EAPrompts.isBuiltinName b = true →
          List.lookup b (EAPrompts.ea_remove_prompt store name c).store = none) := by
  refine ⟨?_, ?_, ⟨by decide, by decide, by decide, by decide, by decide⟩, ?_, ?_⟩
  · intro store name d t args now hb
    simp [EAPrompts.ea_add_prompt, hb]
  · intro store name hb
    simp [EAPrompts.ea_remove_prompt, hb]
  · intro store name d t args now hstore b hbB
    cases hbn : EAPrompts.isBuiltinName name with
    | true =>
      have hs : (EAPrompts.ea_add_prompt store name d t args now).store = store := by
        simp [EAPrompts.ea_add_prompt, hbn]
      rw [hs]
      exact hstore b hbB
    | false =>
      have hs : (EAPrompts.ea_add_prompt store name d t args now).store =
          EAPrompts.dictSet store name
            ⟨name, d, t, EAPrompts.parse_prompt_args args, false, some now⟩ := by
        simp [EAPrompts.ea_add_prompt, hbn]
      rw [hs]
      have hne : b ≠ name := fun he => by rw [he, hbn] at hbB; cases hbB
      rw [EAPrompts.dictSet_lookup_other store name _ b hne]
      exact hstore b hbB
  · intro store name c hstore b hbB
    rcases EAPrompts.remove_prompt_store_shape store name c with hs | hs
    · rw [hs]; exact hstore b hbB
    · rw [hs]
      exact EAPrompts.dictDel_lookup_none store name b (hstore b hbB)

/-- Witness for C8: a built-in add and a confirmed built-in remove, both
rejected over the empty custom store. -/
theorem EAPrompts.builtin_protection_witness :
    EAPrompts.ea_add_prompt [] "code-review" "review my code" "do this: {code}" none
      "2024-01-01T00:00:00+00:00" =
      ⟨[], false,
        "Error: \x27" ++ "code-review" ++ "\x27 is a built-in prompt and cannot be overwritten."⟩
    ∧ EAPrompts.ea_remove_prompt [] "debug" true =
      ⟨[], false,
        "Error: \x27" ++ "debug" ++ "\x27 is a built-in prompt and cannot be removed."⟩ :=
  ⟨EAPrompts.builtin_protection.1 [] "code-review" "review my code" "do this: {code}" none
      "2024-01-01T00:00:00+00:00" (by decide),
    EAPrompts.builtin_protection.2.1 [] "debug" (by decide)⟩

/-- C9: when the custom store already holds a prompt named `name` (not a
built-in), `ea_add_prompt` with that name succeeds: it saves, silently
replaces the stored prompt (last write wins), leaves every other name's
entry alone, and returns the normal confirmation message, not an
error. -/
theorem EAPrompts.add_prompt_overwrites (store : EAPrompts.PromptMap)
    (name d t : String) (args : Option String) (now : String)
    (hb : EAPrompts.isBuiltinName name = false)
    (hex : (List.lookup name store).isSome = true) :
    (EAPrompts.ea_add_prompt store name d t args now).saved = true
    ∧ (EAPrompts.ea_add_prompt store name d t args now).message =
        "Custom prompt added: " ++ name ++ "\nDescription: " ++ d ++ "\nArguments: " ++
          (if EAPrompts.parse_prompt_args args = [] then "none"
           else String.intercalate (", ") ((EAPrompts.parse_prompt_args args).map
             (fun a => a.name))) ++
          "\n\nUse with: /prompt " ++ name
    ∧ List.lookup name (EAPrompts.ea_add_prompt store name d t args now).store =
        some ⟨name, d, t, EAPrompts.parse_prompt_args args, false, some now⟩
    ∧ ∀ k, k ≠ name →
        List.lookup k (EAPrompts.ea_add_prompt store name d t args now).store =
          List.lookup k store := by
  have hs : EAPrompts.ea_add_prompt store name d t args now =
      ⟨EAPrompts.dictSet store name
          ⟨name, d, t, EAPrompts.parse_prompt_args args, false, some now⟩,
        true,
        "Custom prompt added: " ++ name ++ "\nDescription: " ++ d ++ "\nArguments: " ++
          (if EAPrompts.parse_prompt_args args = [] then "none"
           else String.intercalate (", ") ((EAPrompts.parse_prompt_args args).map
             (fun a => a.name))) ++
          "\n\nUse with: /prompt " ++ name⟩ := by
    simp [EAPrompts.ea_add_prompt, hb]
  refine ⟨by rw [hs], by rw [hs], ?_, ?_⟩
  · rw [hs]
    exact EAPrompts.dictSet_lookup_self store name _
  · intro k hk
    rw [hs]
    exact EAPrompts.dictSet_lookup_other store name _ k hk

/-- Witness for C9: overwriting an existing custom prompt named `my-p`. -/
theorem EAPrompts.add_prompt_overwrites_witness :
    (EAPrompts.ea_add_prompt
        [("my-p", ⟨"my-p", "old description", "old template {x}", [], false,
          some ("2024-01-01T00:00:00+00:00")⟩)]
        "my-p" "new description" "new template {x}" none
        "2024-02-02T00:00:00+00:00").saved = true
    ∧ List.lookup ("my-p")
        (EAPrompts.ea_add_prompt
          [("my-p", ⟨"my-p", "old description", "old template {x}", [], false,
            some ("2024-01-01T00:00:00+00:00")⟩)]
          "my-p" "new description" "new template {x}" none
          "2024-02-02T00:00:00+00:00").store =
        some ⟨"my-p", "new description", "new template {x}",
          EAPrompts.parse_prompt_args none, false, some ("2024-02-02T00:00:00+00:00")⟩ := by
  have h := EAPrompts.add_prompt_overwrites
    [("my-p", ⟨"my-p", "old description", "old template {x}", [], false,
      some ("2024-01-01T00:00:00+00:00")⟩)]
    "my-p" "new description" "new template {x}" none "2024-02-02T00:00:00+00:00"
    (by decide) (by decide)
  exact ⟨h.1, h.2.2.1⟩

/-! ### The review window, sort, and date grouping -/

theorem EAJournal.reviewLe_trans : ∀ a b c : EAJournal.DatedEntry,
    EAJournal.reviewLe a b = true → EAJournal.reviewLe b c = true →
    EAJournal.reviewLe a c = true :=
  fun _ _ _ h1 h2 => strLe_trans h2 h1

theorem EAJournal.reviewLe_total : ∀ a b : EAJournal.DatedEntry,
    (EAJournal.reviewLe a b || EAJournal.reviewLe b a) = true := by
  intro a b
  rw [Bool.or_eq_true]
  exact (strLe_total b.entry.timestamp a.entry.timestamp).imp id id

/-- A collected entry comes from the file of its stamped source date. -/
theorem EAJournal.mem_collectEntries (files : Int → RawFile (List EAJournal.Entry))
    (dates : List Int) (e : EAJournal.DatedEntry)
    (h : e ∈ EAJournal.collectEntries files dates) :
    e.entry ∈ EAJournal.load_journal (files e.srcDate) := by
  simp only [EAJournal.collectEntries, List.mem_flatten, List.mem_map] at h
  obtain ⟨l, ⟨d, _, rfl⟩, hel⟩ := h
  obtain ⟨x, hx, rfl⟩ := List.mem_map.mp hel
  exact hx

/-- Over entries whose stamped dates never increase, the header scan from
a current date `c` emits a strictly decreasing list of dates below `c`. -/
theorem EAJournal.headerScan_desc_aux : ∀ (l : List EAJournal.DatedEntry) (c : Int),
    l.Pairwise (fun a b => b.srcDate ≤ a.srcDate) →
    (∀ e ∈ l, e.srcDate ≤ c) →
    (EAJournal.headerScan l (some c)).Pairwise (fun d1 d2 => d2 < d1)
    ∧ ∀ d ∈ EAJournal.headerScan l (some c), d < c
  | [], _, _, _ => ⟨List.Pairwise.nil, fun d hd => absurd hd (List.not_mem_nil d)⟩
  | e :: es, c, hp, hb => by
    rcases List.pairwise_cons.mp hp with ⟨hhead, htail⟩
    by_cases hc : (some c : Option Int) = some e.srcDate
    · rw [show EAJournal.headerScan (e :: es) (some c) =
          if (some c : Option Int) = some e.srcDate then EAJournal.headerScan es (some c)
          else e.srcDate :: EAJournal.headerScan es (some e.srcDate) from rfl, if_pos hc]
      have hcd : c = e.srcDate := Option.some.inj hc
      exact EAJournal.headerScan_desc_aux es c htail
        (fun x hx => (hhead x hx).trans (le_of_eq hcd.symm))
    · rw [show EAJournal.headerScan (e :: es) (some c) =
          if (some c : Option Int) = some e.srcDate then EAJournal.headerScan es (some c)
          else e.srcDate :: EAJournal.headerScan es (some e.srcDate) from rfl, if_neg hc]
      have hlt : e.srcDate < c :=
        lt_of_le_of_ne (hb e (List.mem_cons_self e es))
          (fun he => hc (by rw [he]))
      obtain ⟨hpw, hbnd⟩ := EAJournal.headerScan_desc_aux es e.srcDate htail hhead
      refine ⟨List.pairwise_cons.mpr ⟨fun d hd => hbnd d hd, hpw⟩, ?_⟩
      intro d hd
      rcases List.mem_cons.mp hd with rfl | hd
      · exact hlt
      · exact (hbnd d hd).trans hlt

/-- Over entries whose stamped dates never increase, the emitted date
headers strictly decrease. -/
theorem EAJournal.headerScan_desc (l : List EAJournal.DatedEntry)
    (hp : l.Pairwise (fun a b => b.srcDate ≤ a.srcDate)) :
    (EAJournal.reviewHeaders l).Pairwise (fun d1 d2 => d2 < d1) := by
  cases l with
  | nil => exact List.Pairwise.nil
  | cons e es =>
    rcases List.pairwise_cons.mp hp with ⟨hhead, htail⟩
    rw [show EAJournal.reviewHeaders (e :: es) =
        e.srcDate :: EAJournal.headerScan es (some e.srcDate) from rfl]
    obtain ⟨hpw, hbnd⟩ := EAJournal.headerScan_desc_aux es e.srcDate htail hhead
    exact List.pairwise_cons.mpr ⟨hbnd, hpw⟩

/-- C4: for a review call with `days = N` (1..365), the `days` parameter
takes precedence over any `date` parameter; the window is the `N`
consecutive days ending today; the rendered entries are exactly the union
of those days' files (a permutation of it), sorted by timestamp descending
(newest first); and — when, as the data model guarantees, entries of later
days carry strictly greater timestamps — the per-date headers appear in
strictly descending date order. -/
theorem EAJournal.review_days_window_newest_first
    (files : Int → RawFile (List EAJournal.Entry)) (today : Int) (N : Nat)
    (dateParam : Option Int) (hN1 : 1 ≤ N) (hN2 : N ≤ 365)
    (hinv : ∀ (d1 d2 : Int) (e1 e2 : EAJournal.Entry),
      e1 ∈ EAJournal.load_journal (files d1) →
      e2 ∈ EAJournal.load_journal (files d2) →
      d1 < d2 → strLt e1.timestamp e2.timestamp = true) :
    EAJournal.reviewEntries files today (some N) dateParam none =
      EAJournal.reviewEntries files today (some N) none none
    ∧ EAJournal.reviewDates today (some N) dateParam =
        (List.range N).map (fun i => today - (i : Int))
    ∧ (EAJournal.reviewEntries files today (some N) dateParam none).Perm
        (EAJournal.collectEntries files (EAJournal.reviewDates today (some N) dateParam))
    ∧ (EAJournal.reviewEntries files today (some N) dateParam none).Pairwise
        (fun e1 e2 => strLe e2.entry.timestamp e1.entry.timestamp = true)
    ∧ (EAJournal.reviewHeaders
        (EAJournal.reviewEntries files today (some N) dateParam none)).Pairwise
        (fun d1 d2 => d2 < d1) := by
  have hsorted : (EAJournal.reviewEntries files today (some N) dateParam none).Pairwise
      (fun e1 e2 => EAJournal.reviewLe e1 e2 = true) :=
    @List.sorted_mergeSort _ EAJournal.reviewLe
      EAJournal.reviewLe_trans EAJournal.reviewLe_total _
  have hperm : (EAJournal.reviewEntries files today (some N) dateParam none).Perm
      (EAJournal.collectEntries files (EAJournal.reviewDates today (some N) dateParam)) :=
    List.mergeSort_perm _ _
  refine ⟨rfl, rfl, hperm, hsorted.imp (fun h => h), ?_⟩
  refine EAJournal.headerScan_desc _ (hsorted.imp_of_mem ?_)
  intro a b ha hb hr
  by_contra hlt
  push_neg at hlt
  have hmema := EAJournal.mem_collectEntries files _ a (hperm.mem_iff.mp ha)
  have hmemb := EAJournal.mem_collectEntries files _ b (hperm.mem_iff.mp hb)
  exact strLt_not_le (hinv a.srcDate b.srcDate a.entry b.entry hmema hmemb hlt) hr

/-- Witness for C4: a two-day journal (day 0 and day 1 = today - 0?),
reviewed with `days = 2` while a stray `date` parameter is also set; the
`days` window wins and the headers descend. -/
theorem EAJournal.review_days_window_newest_first_witness :
    EAJournal.reviewEntries
      (fun d => if d = 0 then
          .wellFormed [⟨"entry_100000_0001", "work on a", "work", none,
            "2024-01-01T10:00:00+00:00"⟩]
        else if d = 1 then
          .wellFormed [⟨"entry_090000_0002", "note b", "note", none,
            "2024-01-02T09:00:00+00:00"⟩]
        else .missing) 1 (some 2) (some 99) none =
      EAJournal.reviewEntries
        (fun d => if d = 0 then
            .wellFormed [⟨"entry_100000_0001", "work on a", "work", none,
              "2024-01-01T10:00:00+00:00"⟩]
          else if d = 1 then
            .wellFormed [⟨"entry_090000_0002", "note b", "note", none,
              "2024-01-02T09:00:00+00:00"⟩]
          else .missing) 1 (some 2) none none
    ∧ (EAJournal.reviewHeaders (EAJournal.reviewEntries
        (fun d => if d = 0 then
            .wellFormed [⟨"entry_100000_0001", "work on a", "work", none,
              "2024-01-01T10:00:00+00:00"⟩]
          else if d = 1 then
            .wellFormed [⟨"entry_090000_0002", "note b", "note", none,
              "2024-01-02T09:00:00+00:00"⟩]
          else .missing) 1 (some 2) (some 99) none)).Pairwise
        (fun d1 d2 => d2 < d1) := by
  have h := EAJournal.review_days_window_newest_first
    (fun d => if d = 0 then
        .wellFormed [⟨"entry_100000_0001", "work on a", "work", none,
          "2024-01-01T10:00:00+00:00"⟩]
      else if d = 1 then
        .wellFormed [⟨"entry_090000_0002", "note b", "note", none,
          "2024-01-02T09:00:00+00:00"⟩]
      else .missing) 1 2 (some 99) (by decide) (by decide) ?_
  · exact ⟨h.1, h.2.2.2.2⟩
  · intro d1 d2 e1 e2 h1 h2 hlt
    dsimp only [] at h1 h2
    by_cases h20 : d2 = 0
    · subst h20
      by_cases h10 : d1 = 0
      · subst h10
        exact absurd hlt (lt_irrefl 0)
      · by_cases h11 : d1 = 1
        · subst h11
          exact absurd hlt (by decide)
        · rw [if_neg h10, if_neg h11] at h1
          exact absurd h1 (List.not_mem_nil e1)
    · by_cases h21 : d2 = 1
      · subst h21
        by_cases h10 : d1 = 0
        · subst h10
          rw [if_pos rfl] at h1
          rw [if_neg (by decide), if_pos rfl] at h2
          rw [List.mem_singleton.mp h1, List.mem_singleton.mp h2]
          decide
        · by_cases h11 : d1 = 1
          · subst h11
            exact absurd hlt (lt_irrefl 1)
          · rw [if_neg h10, if_neg h11] at h1
            exact absurd h1 (List.not_mem_nil e1)
      · rw [if_neg h20, if_neg h21] at h2
        exact absurd h2 (List.not_mem_nil e2)
